import Mathlib

/-!
Shallow embedding of the ledger analytics engine of `inx-chronicle`
(`src/analytics/mod.rs` and `src/analytics/ledger/active_addresses.rs`).

Machine integers (u16, u32, u64, usize) are modelled as `Nat`: none of the
embedded code paths can overflow (indices are bounded by list lengths,
timestamps are u32 seconds).  `OffsetDateTime` values obtained by
`OffsetDateTime::try_from(milestone_timestamp)` are compared only with one
another and with `start_time + interval`, so they are modelled by their
second count (`Nat`).  `HashSet<Address>` is modelled as `Finset Address`
(the code only inserts, clears and takes `len`, all order-independent).
`OutputId::to_hex` is an injective rendering of the output id, so the
error payload carries the `OutputId` itself.
-/

/-- Milestone stamp: `(milestone_index, milestone_timestamp)` as in
`types/ledger`.  The timestamp is seconds since epoch (u32 in the source). -/
structure MilestoneIndexTimestamp where
  milestone_index : Nat
  milestone_timestamp : Nat
deriving DecidableEq, Repr

/-- An output id: transaction id plus output index, as in
`types/stardust/block/output`.  The 32-byte transaction id is modelled
as a `Nat`. -/
structure OutputId where
  transaction_id : Nat
  index : Nat
deriving DecidableEq, Repr

/-- Address: tagged variant over signature-lock (Ed25519), alias and NFT
addresses, equality by canonical bytes (modelled as `Nat` payloads). -/
inductive Address where
  | ed25519 (bytes : Nat)
  | aliasAddr (aliasId : Nat)
  | nftAddr (nftId : Nat)
deriving DecidableEq, Repr

/-- Modelled from the spec: the `Output` record of `types/stardust/block/output`
is not under `src/`; the analytics embedded here consult only its owning
address (nullable for treasury outputs) and its amount. -/
structure Output where
  owning_address : Option Address
  amount : Nat
deriving DecidableEq, Repr

/-- A ledger output: an output together with its id and the milestone at
which it was booked (`types/ledger`). -/
structure LedgerOutput where
  output : Output
  output_id : OutputId
  booked : MilestoneIndexTimestamp
deriving DecidableEq, Repr

/-- A spent ledger output: the output plus the milestone consuming it
(`types/ledger`). -/
structure LedgerSpent where
  output : LedgerOutput
  spent_at : MilestoneIndexTimestamp
deriving DecidableEq, Repr

/-- Modelled from the spec: transaction inputs are a tagged variant; the
driver in `analytics/mod.rs` matches `Input::Utxo(output_id)` and skips every
other variant (e.g. treasury inputs). -/
inductive Input where
  | utxo (output_id : OutputId)
  | treasury (milestone_id : Nat)
deriving DecidableEq, Repr

/-- The output id of a UTXO input, `none` for other variants; this is the
`filter_map` arm of `Milestone::handle_block`. -/
def Input.utxoId : Input → Option OutputId
  | .utxo oid => some oid
  | .treasury _ => none

/-- Regular transaction essence: carries `inputs` and `outputs`
(`types/stardust/block/payload/transaction`). -/
inductive TransactionEssence where
  | regular (inputs : List Input) (outputs : List Output)
deriving DecidableEq, Repr

/-- The inputs of a regular essence. -/
def TransactionEssence.inputs : TransactionEssence → List Input
  | .regular is _ => is

/-- The outputs of a regular essence. -/
def TransactionEssence.outputs : TransactionEssence → List Output
  | .regular _ os => os

/-- Transaction payload: transaction id plus essence. -/
structure TransactionPayload where
  transaction_id : Nat
  essence : TransactionEssence
deriving DecidableEq, Repr

/-- Block payload, the four variants of
`types/stardust/block/payload/mod.rs`; only the transaction variant carries
data the analytics driver inspects. -/
inductive Payload where
  | transaction (p : TransactionPayload)
  | milestone (id : Nat)
  | treasuryTransaction (id : Nat)
  | taggedData (tag : Nat)
deriving DecidableEq, Repr

/-- Ledger inclusion state of a block (`types/ledger`). -/
inductive LedgerInclusionState where
  | included
  | conflicting
  | noTransaction
deriving DecidableEq, Repr

/-- Block metadata: the fields the analytics driver reads. -/
structure BlockMetadata where
  inclusion_state : LedgerInclusionState
  referenced_by_milestone_index : Nat
deriving DecidableEq, Repr

/-- A block: the driver reads only its optional payload. -/
structure Block where
  payload : Option Payload
deriving DecidableEq, Repr

/-- A block with metadata, as delivered by the cone stream. -/
structure BlockData where
  block : Block
  metadata : BlockMetadata
deriving DecidableEq, Repr

/-- Protocol parameters; stable within a run. -/
structure ProtocolParameters where
  network_name : String
  token_supply : Nat
deriving DecidableEq, Repr

/-- The ambient analytics context: protocol parameters and the current
milestone stamp (`AnalyticsContext` in `analytics/mod.rs`). -/
structure AnalyticsContext where
  protocol_params : ProtocolParameters
  at_ : MilestoneIndexTimestamp
deriving DecidableEq, Repr

/-- The measurement of the active-address analytics, a newtype over the
address count (`analytics/ledger`). -/
structure AddressCount where
  count : Nat
deriving DecidableEq, Repr

/-!  ## `ActiveAddresses` (sliding interval), `analytics/ledger/active_addresses.rs`

State: window start time, interval length (seconds), the address set, and
the single-slot pending flush.  -/

/-- State of the sliding `ActiveAddresses` analytic. -/
structure ActiveAddresses where
  start_time : Nat
  interval : Nat
  addresses : Finset Address
  flush : Option Nat
deriving DecidableEq

/-- `ActiveAddresses::init`: bootstrap from the unspent-output snapshot,
keeping each output's owning address iff its booked timestamp lies in
`[start_time, start_time + interval)`. -/
def ActiveAddresses.init (start_time : Nat) (interval : Nat)
    (unspent_outputs : List LedgerOutput) : ActiveAddresses :=
  let addresses := (unspent_outputs.filterMap fun output =>
    let booked := output.booked.milestone_timestamp
    if start_time ≤ booked ∧ booked < start_time + interval then
      output.output.owning_address
    else
      none).toFinset
  { start_time := start_time, interval := interval
    addresses := addresses, flush := none }

/-- `ActiveAddresses::begin_milestone`: rolls the window when the milestone
timestamp is strictly past `start_time + interval`. -/
def ActiveAddresses.begin_milestone (s : ActiveAddresses)
    (at_ : MilestoneIndexTimestamp) : ActiveAddresses :=
  let endTime := s.start_time + s.interval
  if at_.milestone_timestamp > endTime then
    { s with flush := some s.addresses.card, addresses := ∅, start_time := endTime }
  else
    s

/-- Insert an optional owning address into the set, the
`if let Some(a) = ... { self.addresses.insert(*a) }` idiom. -/
def ActiveAddresses.insertOpt (acc : ActiveAddresses) :
    Option Address → ActiveAddresses
  | some a => { acc with addresses := insert a acc.addresses }
  | none => acc

/-- `ActiveAddresses::handle_transaction`: inserts every owning address of
the consumed and created outputs. -/
def ActiveAddresses.handle_transaction (s : ActiveAddresses)
    (inputs : List LedgerSpent) (outputs : List LedgerOutput) : ActiveAddresses :=
  let afterInputs := inputs.foldl
    (fun acc input => acc.insertOpt input.output.output.owning_address) s
  outputs.foldl
    (fun acc output => acc.insertOpt output.output.owning_address) afterInputs

/-- `ActiveAddresses::end_milestone`: `flush.take().map(AddressCount)` —
returns the pending flush and clears the slot. -/
def ActiveAddresses.end_milestone (s : ActiveAddresses)
    (_at : MilestoneIndexTimestamp) : ActiveAddresses × Option AddressCount :=
  ({ s with flush := none }, s.flush.map AddressCount.mk)

/-- An event fed to the `ActiveAddresses` analytic between two
`end_milestone` calls. -/
inductive AAEvent where
  | beginMs (at_ : MilestoneIndexTimestamp)
  | tx (inputs : List LedgerSpent) (outputs : List LedgerOutput)

/-- One event step of the `ActiveAddresses` analytic. -/
def ActiveAddresses.step (s : ActiveAddresses) : AAEvent → ActiveAddresses
  | .beginMs at_ => s.begin_milestone at_
  | .tx i o => s.handle_transaction i o

/-- Run a list of events through the `ActiveAddresses` analytic. -/
def ActiveAddresses.run (s : ActiveAddresses) (es : List AAEvent) : ActiveAddresses :=
  es.foldl ActiveAddresses.step s

/-- A full-trace event for the `ActiveAddresses` analytic, including
milestone ends. -/
inductive AASeqEvent where
  | beginMs (at_ : MilestoneIndexTimestamp)
  | tx (inputs : List LedgerSpent) (outputs : List LedgerOutput)
  | endMs (at_ : MilestoneIndexTimestamp)

/-- Run a full event sequence, counting emissions (measurements returned by
`end_milestone`) and boundary crossings (milestone timestamps strictly past
the current window end at `begin_milestone` time). -/
def ActiveAddresses.runCount :
    ActiveAddresses → List AASeqEvent → ActiveAddresses × Nat × Nat
  | s, [] => (s, 0, 0)
  | s, .beginMs at_ :: es =>
    let crossed : Nat :=
      if at_.milestone_timestamp > s.start_time + s.interval then 1 else 0
    let r := (s.begin_milestone at_).runCount es
    (r.1, r.2.1, crossed + r.2.2)
  | s, .tx i o :: es => (s.handle_transaction i o).runCount es
  | s, .endMs at_ :: es =>
    let p := s.end_milestone at_
    let emitted : Nat := if p.2.isSome then 1 else 0
    let r := p.1.runCount es
    (r.1, emitted + r.2.1, r.2.2)

/-!  ## Milestone driver, `analytics/mod.rs`

An analytic is modelled as a record of pure state-transition functions
(the `Analytics` trait with `&mut self` turned into explicit state
passing); the milestone is a record of its stamp, protocol parameters,
block cone (the cone stream, already in cone order) and the two
ledger-update lookups. -/

/-- The errors of `AnalyticsError` in `analytics/mod.rs`. -/
inductive AnalyticsError where
  | missingLedgerOutput (output_id : OutputId) (milestone_index : Nat)
  | missingLedgerSpent (output_id : OutputId) (milestone_index : Nat)
deriving DecidableEq, Repr

/-- The `Analytics` trait: a stateful analytic with state `S` and
measurement type `M`.  Each Rust `&mut self` method becomes a function from
state to state. -/
structure AnalyticsImpl (S M : Type) where
  handle_transaction : S → List LedgerSpent → List LedgerOutput → AnalyticsContext → S
  handle_block : S → BlockData → AnalyticsContext → S
  end_milestone : S → AnalyticsContext → S × Option M

/-- A milestone as seen by the driver: stamp, protocol parameters, block
cone and ledger-update lookups (`Milestone` plus its `LedgerUpdateStore`). -/
structure MilestoneCtx where
  at_ : MilestoneIndexTimestamp
  protocol_params : ProtocolParameters
  cone : List BlockData
  get_consumed : OutputId → Option LedgerSpent
  get_created : OutputId → Option LedgerOutput

/-- The context handed to every analytic within one milestone. -/
def MilestoneCtx.ctx (m : MilestoneCtx) : AnalyticsContext :=
  { protocol_params := m.protocol_params, at_ := m.at_ }

/-- Collect a list of fallible results, stopping at the first error — the
semantics of Rust's `collect::<Result<Vec<_>>>()`. -/
def collectResults {α β : Type} (f : α → Except AnalyticsError β) :
    List α → Except AnalyticsError (List β)
  | [] => .ok []
  | a :: as_ =>
    match f a with
    | .error e => .error e
    | .ok b =>
      match collectResults f as_ with
      | .error e => .error e
      | .ok bs => .ok (b :: bs)

/-- Resolve the consumed side of a transaction: keep only UTXO inputs and
look each up via `get_consumed`; a missing entry is a fatal
`MissingLedgerSpent` carrying that output id and the referencing milestone
index. -/
def resolveConsumed (get : OutputId → Option LedgerSpent) (msIdx : Nat)
    (inputs : List Input) : Except AnalyticsError (List LedgerSpent) :=
  collectResults (fun oid =>
    match get oid with
    | some sp => .ok sp
    | none => .error (.missingLedgerSpent oid msIdx))
    (inputs.filterMap Input.utxoId)

/-- Resolve the created side of a transaction: for each output position `j`
synthesise `(transaction_id, j)` and look it up via `get_created`; a missing
entry is a fatal `MissingLedgerOutput`. -/
def resolveCreated (get : OutputId → Option LedgerOutput) (msIdx : Nat)
    (txId : Nat) (outputs : List Output) : Except AnalyticsError (List LedgerOutput) :=
  collectResults (fun j =>
    let oid : OutputId := { transaction_id := txId, index := j }
    match get oid with
    | some o => .ok o
    | none => .error (.missingLedgerOutput oid msIdx))
    (List.range outputs.length)

/-- `Milestone::handle_block`: for an included block with a transaction
payload, resolve consumed then created (each `?`-propagating) and dispatch
`handle_transaction`; then dispatch `handle_block` unconditionally. -/
def MilestoneCtx.handle_block {S M : Type} (m : MilestoneCtx)
    (a : AnalyticsImpl S M) (s : S) (bd : BlockData) : Except AnalyticsError S := do
  let s₁ ←
    if bd.metadata.inclusion_state = .included then
      match bd.block.payload with
      | some (.transaction p) => do
        let msIdx := bd.metadata.referenced_by_milestone_index
        let consumed ← resolveConsumed m.get_consumed msIdx p.essence.inputs
        let created ← resolveCreated m.get_created msIdx p.transaction_id p.essence.outputs
        pure (a.handle_transaction s consumed created m.ctx)
      | _ => pure s
    else
      pure s
  pure (a.handle_block s₁ bd m.ctx)

/-- Drain the cone stream, dispatching each block; a failing block aborts
the loop, leaving the state as it was before that block (no callback runs
for the failing block). -/
def MilestoneCtx.processCone {S M : Type} (m : MilestoneCtx) (a : AnalyticsImpl S M) :
    List BlockData → S → S × Option AnalyticsError
  | [], s => (s, none)
  | bd :: rest, s =>
    match m.handle_block a s bd with
    | .ok s' => m.processCone a rest s'
    | .error e => (s, some e)

/-- A measurement stamped with the driving milestone (`PerMilestone`). -/
structure PerMilestone (M : Type) where
  at_ : MilestoneIndexTimestamp
  inner : M
deriving DecidableEq, Repr

/-- The blanket `DynAnalytics` impl: `end_milestone` wraps any returned
measurement in `PerMilestone` with the context's stamp. -/
def dynEndMilestone {S M : Type} (a : AnalyticsImpl S M) (s : S)
    (ctx : AnalyticsContext) : S × Option (PerMilestone M) :=
  let (s', r) := a.end_milestone s ctx
  (s', r.map fun meas => { at_ := ctx.at_, inner := meas })

/-- The outcome of `Milestone::update_analytics`: final analytics state,
the points written to the sink, and the error if the milestone aborted. -/
structure DriverResult (S M : Type) where
  state : S
  sink : List (PerMilestone M)
  err : Option AnalyticsError
deriving DecidableEq, Repr

/-- `Milestone::update_analytics`: drain the cone; an error aborts before
`end_milestone` and writes nothing to the sink; on success, `end_milestone`
runs and any measurement is forwarded to the sink as one point. -/
def MilestoneCtx.update_analytics {S M : Type} (m : MilestoneCtx)
    (a : AnalyticsImpl S M) (s : S) : DriverResult S M :=
  match m.processCone a m.cone s with
  | (s', none) =>
    let r := dynEndMilestone a s' m.ctx
    { state := r.1
      sink := match r.2 with | some p => [p] | none => []
      err := none }
  | (s', some e) => { state := s', sink := [], err := some e }

/-- The `impl Analytics for T: AsMut<[Analytic]>` fan-out: every callback is
dispatched to every analytic in the list in order, and `end_milestone`
always returns `some` of the collected measurements. -/
def listAnalytics {S M : Type} (a : AnalyticsImpl S M) :
    AnalyticsImpl (List S) (List M) where
  handle_transaction ss consumed created ctx :=
    ss.map fun s => a.handle_transaction s consumed created ctx
  handle_block ss bd ctx :=
    ss.map fun s => a.handle_block s bd ctx
  end_milestone ss ctx :=
    let pairs := ss.map fun s => a.end_milestone s ctx
    (pairs.map Prod.fst, some (pairs.filterMap Prod.snd))

/-- Events observed by the instrumentation analytic. -/
inductive AEvent where
  | tx (consumed : List LedgerSpent) (created : List LedgerOutput)
      (at_ : MilestoneIndexTimestamp)
  | block (bd : BlockData) (at_ : MilestoneIndexTimestamp)
  | endMs (at_ : MilestoneIndexTimestamp)
deriving DecidableEq, Repr

/-- The instrumentation analytic: its state is the list of callbacks it has
received, in order.  Any statement about which callbacks the driver issues
is read off this trace. -/
def traceAnalytics : AnalyticsImpl (List AEvent) Unit where
  handle_transaction s consumed created ctx := s ++ [.tx consumed created ctx.at_]
  handle_block s bd ctx := s ++ [.block bd ctx.at_]
  end_milestone s ctx := (s ++ [.endMs ctx.at_], some ())

/-!  ## Calendar intervals, `AnalyticsInterval` in `analytics/mod.rs`

The `time` crate's `Date` is modelled by its day number (days since
1970-01-01, proleptic Gregorian); `year` and `month` are recovered with the
standard civil-calendar conversion, and `Duration` by its whole-day count
(the only constructor used is `Duration::days`). -/

/-- A calendar date, as days since 1970-01-01 (proleptic Gregorian). -/
structure Date where
  days : Int
deriving DecidableEq, Repr

/-- A time span; the analytics code only ever builds whole-day spans. -/
structure Duration where
  days : Int
deriving DecidableEq, Repr

/-- `time::Duration::days`. -/
def Duration.ofDays (n : Int) : Duration := { days := n }

/-- Date plus duration: the `time` crate implements `Date + Duration` by
adding the whole-day count to the julian day number. -/
instance : HAdd Date Duration Date where
  hAdd d dur := { days := d.days + dur.days }

/-- Civil-from-days: recover `(year, month, day)` from the day number. -/
def Date.toCivil (d : Date) : Int × Nat × Nat :=
  let z := d.days + 719468
  let era := Int.fdiv z 146097
  let doe := (z - era * 146097).toNat
  let yoe := (doe - doe / 1460 + doe / 36524 - doe / 146096) / 365
  let y := era * 400 + yoe
  let doy := doe - (365 * yoe + yoe / 4 - yoe / 100)
  let mp := (5 * doy + 2) / 153
  let day := doy - (153 * mp + 2) / 5 + 1
  let m := if mp < 10 then mp + 3 else mp - 9
  (if m ≤ 2 then y + 1 else y, m, day)

/-- The year of a date. -/
def Date.year (d : Date) : Int := d.toCivil.1

/-- The month (1–12) of a date. -/
def Date.month (d : Date) : Nat := d.toCivil.2.1

/-- Days-from-civil: build the day number from `(year, month, day)`;
inverse of `Date.toCivil`, used to write concrete dates. -/
def Date.fromCivil (y : Int) (m d : Nat) : Date :=
  let y' := if m ≤ 2 then y - 1 else y
  let era := Int.fdiv y' 400
  let yoe := (y' - era * 400).toNat
  let mp := if 3 ≤ m then m - 3 else m + 9
  let doy := (153 * mp + 2) / 5 + d - 1
  let doe := yoe * 365 + yoe / 4 - yoe / 100 + doy
  { days := era * 146097 + (doe : Int) - 719468 }

/-- `time::util::is_leap_year`. -/
def isLeapYear (y : Int) : Bool :=
  (y % 4 = 0 ∧ y % 100 ≠ 0) ∨ y % 400 = 0

/-- `time::util::days_in_year`. -/
def daysInYear (y : Int) : Nat :=
  if isLeapYear y then 366 else 365

/-- `time::util::days_in_year_month`. -/
def daysInYearMonth (y : Int) (m : Nat) : Nat :=
  if m = 2 then (if isLeapYear y then 29 else 28)
  else if m = 4 ∨ m = 6 ∨ m = 9 ∨ m = 11 then 30
  else 31

/-- The interval kinds of `AnalyticsInterval`. -/
inductive AnalyticsInterval where
  | day
  | week
  | month
  | year
deriving DecidableEq, Repr

/-- `AnalyticsInterval::to_duration`: the duration of one interval starting
at `start_date`. -/
def AnalyticsInterval.to_duration (i : AnalyticsInterval) (start_date : Date) : Duration :=
  match i with
  | .day => Duration.ofDays 1
  | .week => Duration.ofDays 7
  | .month => Duration.ofDays (daysInYearMonth start_date.year start_date.month)
  | .year => Duration.ofDays (daysInYear start_date.year)

/-- `AnalyticsInterval::end_date`: the exclusive end of the interval. -/
def AnalyticsInterval.end_date (i : AnalyticsInterval) (start_date : Date) : Date :=
  start_date + i.to_duration start_date

/-- A measurement stamped with the start date and interval kind it was
computed for (`PerInterval`). -/
structure PerInterval (M : Type) where
  start_date : Date
  interval : AnalyticsInterval
  inner : M
deriving DecidableEq, Repr

/-- The `IntervalAnalytics` trait: a date-range computation against the
document store (the store access and its fallibility are abstracted into
the function, which may fail). -/
structure IntervalAnalyticsImpl (S M : Type) where
  handle_date_range : S → Date → AnalyticsInterval → Except String (S × M)

/-- The blanket `DynIntervalAnalytics` impl: wraps a successful result in
`PerInterval` with the invocation's start date and interval kind. -/
def dynHandleDateRange {S M : Type} (a : IntervalAnalyticsImpl S M) (s : S)
    (start_date : Date) (interval : AnalyticsInterval) :
    Except String (S × PerInterval M) :=
  (a.handle_date_range s start_date interval).map fun r =>
    (r.1, { start_date := start_date, interval := interval, inner := r.2 })

/-- `MongoDb::update_interval_analytics`: run each interval analytic in
turn, forwarding each wrapped measurement to the sink as one point; the
first failure aborts.  Returns the updated states and the sink points. -/
def update_interval_analytics {S M : Type} (a : IntervalAnalyticsImpl S M)
    (start : Date) (interval : AnalyticsInterval) :
    List S → Except String (List S × List (PerInterval M))
  | [] => .ok ([], [])
  | s :: rest =>
    match dynHandleDateRange a s start interval with
    | .error e => .error e
    | .ok (s', p) =>
      match update_interval_analytics a start interval rest with
      | .error e => .error e
      | .ok (ss, ps) => .ok (s' :: ss, p :: ps)

/-!  ## Concrete reference inputs

Small concrete milestones and event sequences on which the embedded code
is evaluated. -/

/-- An included block carrying a tagged-data payload. -/
def bTagged : BlockData :=
  { block := { payload := some (.taggedData 0) }
    metadata := { inclusion_state := .included, referenced_by_milestone_index := 7 } }

/-- A transaction payload with a single UTXO input and no outputs. -/
def txOneInput : TransactionPayload :=
  { transaction_id := 9
    essence := .regular [.utxo { transaction_id := 5, index := 0 }] [] }

/-- An included block carrying `txOneInput`. -/
def bOneInput : BlockData :=
  { block := { payload := some (.transaction txOneInput) }
    metadata := { inclusion_state := .included, referenced_by_milestone_index := 7 } }

/-- A milestone whose ledger-update lookups resolve nothing: the tagged-data
block is processed, then resolution of `bOneInput`'s consumed side fails. -/
def msBroken : MilestoneCtx :=
  { at_ := { milestone_index := 7, milestone_timestamp := 100 }
    protocol_params := { network_name := "testnet", token_supply := 0 }
    cone := [bTagged, bOneInput]
    get_consumed := fun _ => none
    get_created := fun _ => none }

/-- A spent ledger output resolving the UTXO input of `txOneInput`. -/
def spentFix : LedgerSpent :=
  { output := { output := { owning_address := some (.ed25519 1), amount := 100 }
                output_id := { transaction_id := 5, index := 0 }
                booked := { milestone_index := 3, milestone_timestamp := 30 } }
    spent_at := { milestone_index := 7, milestone_timestamp := 100 } }

/-- A milestone whose ledger-update lookups resolve every consumed output:
`bOneInput`'s transaction resolves to `[spentFix]` and dispatches. -/
def msGood : MilestoneCtx :=
  { at_ := { milestone_index := 7, milestone_timestamp := 100 }
    protocol_params := { network_name := "testnet", token_supply := 0 }
    cone := [bOneInput]
    get_consumed := fun _ => some spentFix
    get_created := fun _ => none }

/-- A fresh sliding-window state: window `[0, 10)`, nothing pending. -/
def aaFresh : ActiveAddresses :=
  { start_time := 0, interval := 10, addresses := ∅, flush := none }

/-- A sliding-window state with a pending flush of 3. -/
def aaPending : ActiveAddresses :=
  { start_time := 0, interval := 10, addresses := ∅, flush := some 3 }

/-- Two boundary-crossing `begin_milestone` calls followed by two
`end_milestone` calls. -/
def aaTwoCrossings : List AASeqEvent :=
  [.beginMs { milestone_index := 1, milestone_timestamp := 11 },
   .beginMs { milestone_index := 2, milestone_timestamp := 21 },
   .endMs { milestone_index := 3, milestone_timestamp := 25 },
   .endMs { milestone_index := 4, milestone_timestamp := 26 }]

/-- A trivial interval analytic that always succeeds with a unit
measurement. -/
def ivTrivial : IntervalAnalyticsImpl (List AEvent) Unit :=
  { handle_date_range := fun s _ _ => Except.ok (s, ()) }

/-!  ## Supporting lemmas -/

/-- Resolving the consumed side fails with `MissingLedgerSpent` for the
first UTXO input whose lookup misses. -/
theorem resolveConsumed_error (get : OutputId → Option LedgerSpent)
    (msIdx : Nat) (inputs : List Input) (oid0 : OutputId)
    (h : (inputs.filterMap Input.utxoId).find?
      (fun oid => (get oid).isNone) = some oid0) :
    resolveConsumed get msIdx inputs = .error (.missingLedgerSpent oid0 msIdx) := by
  unfold resolveConsumed
  generalize inputs.filterMap Input.utxoId = l at h ⊢
  induction l with
  | nil => simp [List.find?] at h
  | cons a as ih =>
    cases hga : get a with
    | none =>
      rw [List.find?_cons_of_pos _ (by simp [hga])] at h
      cases h
      simp [collectResults, hga]
    | some b =>
      rw [List.find?_cons_of_neg _ (by simp [hga])] at h
      simp [collectResults, hga, ih h]

/-- Resolving the consumed side succeeds when every UTXO input's lookup
hits. -/
theorem resolveConsumed_ok (get : OutputId → Option LedgerSpent)
    (msIdx : Nat) (inputs : List Input)
    (h : ∀ oid ∈ inputs.filterMap Input.utxoId, (get oid).isSome) :
    ∃ ls, resolveConsumed get msIdx inputs = .ok ls := by
  unfold resolveConsumed
  generalize inputs.filterMap Input.utxoId = l at h ⊢
  induction l with
  | nil => exact ⟨[], rfl⟩
  | cons a as ih =>
    cases hga : get a with
    | none => simp [hga] at h
    | some b =>
      obtain ⟨bs, hbs⟩ := ih fun x hx => h x (List.mem_cons_of_mem _ hx)
      exact ⟨b :: bs, by simp [collectResults, hga, hbs]⟩

/-- Resolving the created side fails with `MissingLedgerOutput` for the
first output position whose synthesised id misses. -/
theorem resolveCreated_error (get : OutputId → Option LedgerOutput)
    (msIdx : Nat) (txId : Nat) (outputs : List Output) (j0 : Nat)
    (h : (List.range outputs.length).find?
      (fun j => (get { transaction_id := txId, index := j }).isNone) = some j0) :
    resolveCreated get msIdx txId outputs
      = .error (.missingLedgerOutput { transaction_id := txId, index := j0 } msIdx) := by
  unfold resolveCreated
  generalize List.range outputs.length = l at h ⊢
  induction l with
  | nil => simp [List.find?] at h
  | cons a as ih =>
    cases hga : get { transaction_id := txId, index := a } with
    | none =>
      rw [List.find?_cons_of_pos _ (by simp [hga])] at h
      cases h
      simp [collectResults, hga]
    | some b =>
      rw [List.find?_cons_of_neg _ (by simp [hga])] at h
      simp [collectResults, hga, ih h]

/-- Filtering a list of inputs down to those with a UTXO output id does not
change its `filterMap Input.utxoId` image. -/
theorem filterMap_utxoId_filter (inputs : List Input) :
    (inputs.filter fun i => (Input.utxoId i).isSome).filterMap Input.utxoId
      = inputs.filterMap Input.utxoId := by
  induction inputs with
  | nil => rfl
  | cons i is ih =>
    cases i with
    | utxo oid =>
      rw [List.filter_cons_of_pos (by simp [Input.utxoId])]
      simp only [List.filterMap_cons, Input.utxoId]
      exact congrArg (List.cons oid) ih
    | treasury mid =>
      rw [List.filter_cons_of_neg (by simp [Input.utxoId])]
      exact ih

/-!  ## Claim theorems -/

/-- C10: in the milestone driver's resolution step, non-UTXO inputs are
silently skipped: inserting a treasury input anywhere in the input list
leaves the resolved consumed side unchanged (so it can neither trigger a
`MissingLedgerSpent` error nor contribute an entry to the list handed to
`handle_transaction`), and resolution only ever consults UTXO inputs. -/
theorem c10_non_utxo_inputs_skipped (get : OutputId → Option LedgerSpent)
    (msIdx : Nat) (l1 l2 : List Input) (mid : Nat) :
    resolveConsumed get msIdx (l1 ++ Input.treasury mid :: l2)
      = resolveConsumed get msIdx (l1 ++ l2) ∧
    ∀ inputs : List Input,
      resolveConsumed get msIdx inputs
        = resolveConsumed get msIdx (inputs.filter fun i => (Input.utxoId i).isSome) := by
  constructor
  · unfold resolveConsumed
    rw [List.filterMap_append, List.filterMap_append]
    simp [List.filterMap_cons, Input.utxoId]
  · intro inputs
    unfold resolveConsumed
    rw [filterMap_utxoId_filter]

/-- C8: interval durations — `Day` is 1 day, `Week` is 7 days, `Month` is
the number of days in the start date's year and month, `Year` is the number
of days in the start date's year — and the exclusive end date is the start
date plus that duration.  The concrete conjuncts check the month and year
durations on leap and non-leap dates. -/
theorem c8_interval_durations (d : Date) :
    AnalyticsInterval.day.to_duration d = Duration.ofDays 1 ∧
    AnalyticsInterval.week.to_duration d = Duration.ofDays 7 ∧
    AnalyticsInterval.month.to_duration d
      = Duration.ofDays (daysInYearMonth d.year d.month) ∧
    AnalyticsInterval.year.to_duration d = Duration.ofDays (daysInYear d.year) ∧
    (∀ i : AnalyticsInterval, i.end_date d = d + i.to_duration d) ∧
    AnalyticsInterval.month.to_duration (Date.fromCivil 2024 2 1) = Duration.ofDays 29 ∧
    AnalyticsInterval.month.to_duration (Date.fromCivil 2023 2 1) = Duration.ofDays 28 ∧
    AnalyticsInterval.month.to_duration (Date.fromCivil 2023 4 1) = Duration.ofDays 30 ∧
    AnalyticsInterval.year.to_duration (Date.fromCivil 1900 6 1) = Duration.ofDays 365 ∧
    AnalyticsInterval.year.to_duration (Date.fromCivil 2000 6 1) = Duration.ofDays 366 :=
  ⟨rfl, rfl, rfl, rfl, fun _ => rfl,
   by decide, by decide, by decide, by decide, by decide⟩

/-- C5: `ActiveAddresses::init` captures exactly the owning addresses of
snapshot outputs whose booked timestamp lies in the half-open window
`[start_time, start_time + interval)`; outputs booked outside the window
(and ownerless outputs) contribute nothing, and the initial window and
flush slot are as given. -/
theorem c5_init_window (start_time interval : Nat) (outputs : List LedgerOutput) :
    (∀ a : Address,
      a ∈ (ActiveAddresses.init start_time interval outputs).addresses ↔
        ∃ o ∈ outputs,
          (start_time ≤ o.booked.milestone_timestamp ∧
           o.booked.milestone_timestamp < start_time + interval) ∧
          o.output.owning_address = some a) ∧
    (ActiveAddresses.init start_time interval outputs).start_time = start_time ∧
    (ActiveAddresses.init start_time interval outputs).interval = interval ∧
    (ActiveAddresses.init start_time interval outputs).flush = none := by
  refine ⟨fun a => ?_, rfl, rfl, rfl⟩
  simp only [ActiveAddresses.init, List.mem_toFinset, List.mem_filterMap]
  constructor
  · rintro ⟨o, ho, hf⟩
    by_cases hw : start_time ≤ o.booked.milestone_timestamp ∧
        o.booked.milestone_timestamp < start_time + interval
    · rw [if_pos hw] at hf
      exact ⟨o, ho, hw, hf⟩
    · rw [if_neg hw] at hf
      cases hf
  · rintro ⟨o, ho, hw, ha⟩
    exact ⟨o, ho, by rw [if_pos hw]; exact ha⟩

/-- C6: `ActiveAddresses::begin_milestone` rolls the window exactly when
the milestone timestamp is strictly past `start_time + interval`: it
latches the current set size into the flush slot, empties the set and
advances the window start by one interval; otherwise the state is
returned unchanged. -/
theorem c6_begin_milestone_roll (s : ActiveAddresses) (at_ : MilestoneIndexTimestamp) :
    (at_.milestone_timestamp > s.start_time + s.interval →
      (s.begin_milestone at_).flush = some s.addresses.card ∧
      (s.begin_milestone at_).addresses = ∅ ∧
      (s.begin_milestone at_).start_time = s.start_time + s.interval ∧
      (s.begin_milestone at_).interval = s.interval) ∧
    (¬ at_.milestone_timestamp > s.start_time + s.interval →
      s.begin_milestone at_ = s) := by
  constructor
  · intro h
    simp [ActiveAddresses.begin_milestone, if_pos h]
  · intro h
    simp only [ActiveAddresses.begin_milestone, if_neg h]

/-- Witness for C6 on a concrete crossing. -/
theorem c6_begin_milestone_roll_witness :
    (ActiveAddresses.begin_milestone
        { start_time := 0, interval := 10, addresses := ∅, flush := none }
        { milestone_index := 1, milestone_timestamp := 11 }).flush = some 0 ∧
    (ActiveAddresses.begin_milestone
        { start_time := 0, interval := 10, addresses := ∅, flush := none }
        { milestone_index := 1, milestone_timestamp := 11 }).start_time = 10 :=
  ⟨((c6_begin_milestone_roll _ _).1 (by decide)).1,
   ((c6_begin_milestone_roll _ _).1 (by decide)).2.2.1⟩

/-- C7: replay determinism — the embedded driver and analytics are pure
state-transition functions, so two runs over the same milestone, the same
analytic and the same initial state (and any two equal event sequences fed
to the sliding active-address analytic) produce identical measurement
output. -/
theorem c7_replay_determinism {S M : Type} (a : AnalyticsImpl S M)
    (m m' : MilestoneCtx) (s s' : S) (hm : m = m') (hs : s = s') :
    m.update_analytics a s = m'.update_analytics a s' ∧
    ∀ (t t' : ActiveAddresses) (es es' : List AASeqEvent),
      t = t' → es = es' → t.runCount es = t'.runCount es' := by
  subst hm; subst hs
  refine ⟨rfl, ?_⟩
  intro t t' es es' ht he
  subst ht; subst he
  rfl

/-- Witness for C7 on the concrete broken milestone. -/
theorem c7_replay_determinism_witness :
    msBroken.update_analytics traceAnalytics []
      = msBroken.update_analytics traceAnalytics [] :=
  (c7_replay_determinism traceAnalytics msBroken msBroken [] [] rfl rfl).1

/-- Character of one driver dispatch on the instrumentation analytic,
directed form: on a successful `Milestone::handle_block`, an included block
with a transaction payload ALWAYS gets a `handle_transaction` callback
carrying the resolved consumed and created lists, immediately followed by
its `handle_block` callback; every other block gets exactly a `handle_block`
callback. -/
theorem handle_block_trace_strong (m : MilestoneCtx) (bd : BlockData)
    (s s' : List AEvent)
    (h : m.handle_block traceAnalytics s bd = .ok s') :
    (∀ p, bd.metadata.inclusion_state = .included →
      bd.block.payload = some (.transaction p) →
      ∃ consumed created,
        resolveConsumed m.get_consumed bd.metadata.referenced_by_milestone_index
          p.essence.inputs = .ok consumed ∧
        resolveCreated m.get_created bd.metadata.referenced_by_milestone_index
          p.transaction_id p.essence.outputs = .ok created ∧
        s' = s ++ [.tx consumed created m.at_, .block bd m.at_]) ∧
    ((bd.metadata.inclusion_state ≠ .included ∨
        ∀ p, bd.block.payload ≠ some (.transaction p)) →
      s' = s ++ [.block bd m.at_]) := by
  unfold MilestoneCtx.handle_block at h
  by_cases hinc : bd.metadata.inclusion_state = .included
  · rw [if_pos hinc] at h
    cases hp : bd.block.payload with
    | none =>
      rw [hp] at h
      refine ⟨fun p _ hp' => by simp at hp', fun _ => ?_⟩
      simp [bind, Except.bind, pure, Except.pure, traceAnalytics] at h
      exact h.symm
    | some pl =>
      cases pl with
      | transaction p =>
        rw [hp] at h
        dsimp only at h
        cases hc : resolveConsumed m.get_consumed
            bd.metadata.referenced_by_milestone_index p.essence.inputs with
        | error e =>
          rw [hc] at h
          simp [bind, Except.bind] at h
        | ok consumed =>
          rw [hc] at h
          cases hcr : resolveCreated m.get_created
              bd.metadata.referenced_by_milestone_index p.transaction_id
              p.essence.outputs with
          | error e =>
            rw [hcr] at h
            simp [bind, Except.bind] at h
          | ok created =>
            rw [hcr] at h
            refine ⟨?_, ?_⟩
            · intro p' _ hp'
              have hpq : p = p' := by
                have := Option.some.inj hp'
                exact Payload.transaction.inj this
              subst hpq
              refine ⟨consumed, created, hc, hcr, ?_⟩
              simp [bind, Except.bind, pure, Except.pure, traceAnalytics,
                MilestoneCtx.ctx] at h
              simp [← h]
            · intro hcontra
              rcases hcontra with hninc | hall
              · exact absurd hinc hninc
              · exact absurd rfl (hall p)
      | milestone i =>
        rw [hp] at h
        refine ⟨fun p _ hp' => by simp at hp', fun _ => ?_⟩
        simp [bind, Except.bind, pure, Except.pure, traceAnalytics] at h
        exact h.symm
      | treasuryTransaction i =>
        rw [hp] at h
        refine ⟨fun p _ hp' => by simp at hp', fun _ => ?_⟩
        simp [bind, Except.bind, pure, Except.pure, traceAnalytics] at h
        exact h.symm
      | taggedData t =>
        rw [hp] at h
        refine ⟨fun p _ hp' => by simp at hp', fun _ => ?_⟩
        simp [bind, Except.bind, pure, Except.pure, traceAnalytics] at h
        exact h.symm
  · rw [if_neg hinc] at h
    refine ⟨fun p hinc' _ => absurd hinc' hinc, fun _ => ?_⟩
    simp [bind, Except.bind, pure, Except.pure, traceAnalytics] at h
    exact h.symm

/-- Disjunctive corollary of the directed dispatch characterisation, used
for the cone-level inductions. -/
theorem handle_block_trace_cases (m : MilestoneCtx) (bd : BlockData)
    (s s' : List AEvent)
    (h : m.handle_block traceAnalytics s bd = .ok s') :
    (∃ consumed created p,
      bd.metadata.inclusion_state = .included ∧
      bd.block.payload = some (.transaction p) ∧
      s' = s ++ [.tx consumed created m.at_, .block bd m.at_]) ∨
    s' = s ++ [.block bd m.at_] := by
  obtain ⟨h1, h2⟩ := handle_block_trace_strong m bd s s' h
  by_cases hinc : bd.metadata.inclusion_state = .included
  · cases hp : bd.block.payload with
    | none => exact Or.inr (h2 (Or.inr fun p' hq => by rw [hp] at hq; simp at hq))
    | some pl =>
      cases pl with
      | transaction p =>
        obtain ⟨c, r, -, -, htr⟩ := h1 p hinc hp
        exact Or.inl ⟨c, r, p, hinc, rfl, htr⟩
      | milestone i =>
        exact Or.inr (h2 (Or.inr fun p' hq => by rw [hp] at hq; simp at hq))
      | treasuryTransaction i =>
        exact Or.inr (h2 (Or.inr fun p' hq => by rw [hp] at hq; simp at hq))
      | taggedData t =>
        exact Or.inr (h2 (Or.inr fun p' hq => by rw [hp] at hq; simp at hq))
  · exact Or.inr (h2 (Or.inl hinc))

/-- Draining the cone on the instrumentation analytic only ever appends
transaction and block events — never a milestone-end event — and stops at
the failing block with the state reached so far. -/
theorem processCone_trace (m : MilestoneCtx) :
    ∀ (cone : List BlockData) (s : List AEvent),
    ∃ tail, (m.processCone traceAnalytics cone s).1 = s ++ tail ∧
      ∀ ev ∈ tail, ∀ at_, ev ≠ AEvent.endMs at_
  | [], s => ⟨[], by simp [MilestoneCtx.processCone], by simp⟩
  | bd :: rest, s => by
    cases hb : m.handle_block traceAnalytics s bd with
    | error e =>
      refine ⟨[], ?_, by simp⟩
      simp [MilestoneCtx.processCone, hb]
    | ok s' =>
      obtain ⟨tail, htail, hno⟩ := processCone_trace m rest s'
      have hstep : (m.processCone traceAnalytics (bd :: rest) s).1
          = (m.processCone traceAnalytics rest s').1 := by
        simp [MilestoneCtx.processCone, hb]
      rcases handle_block_trace_cases m bd s s' hb with ⟨c, r, p, -, -, hs'⟩ | hs'
      · refine ⟨[.tx c r m.at_, .block bd m.at_] ++ tail, ?_, ?_⟩
        · rw [hstep, htail, hs']
          simp
        · intro ev hev at_
          rcases List.mem_append.mp hev with h1 | h2
          · simp only [List.mem_cons, List.not_mem_nil, or_false] at h1
            rcases h1 with h1 | h1 <;> (subst h1; simp)
          · exact hno ev h2 at_
      · refine ⟨[.block bd m.at_] ++ tail, ?_, ?_⟩
        · rw [hstep, htail, hs']
          simp
        · intro ev hev at_
          rcases List.mem_append.mp hev with h1 | h2
          · simp only [List.mem_cons, List.not_mem_nil, or_false] at h1
            subst h1
            simp
          · exact hno ev h2 at_

/-- When the whole cone is drained without error, every block of the cone
— included or not — has its block event in the final trace. -/
theorem processCone_blocks (m : MilestoneCtx) :
    ∀ (cone : List BlockData) (s : List AEvent),
    (m.processCone traceAnalytics cone s).2 = none →
    ∀ bd ∈ cone,
      AEvent.block bd m.at_ ∈ (m.processCone traceAnalytics cone s).1
  | [], _, _, bd, hbd => absurd hbd (List.not_mem_nil bd)
  | bd0 :: rest, s, h, bd, hbd => by
    cases hb : m.handle_block traceAnalytics s bd0 with
    | error e =>
      rw [show m.processCone traceAnalytics (bd0 :: rest) s = (s, some e) by
        simp [MilestoneCtx.processCone, hb]] at h
      cases h
    | ok s' =>
      have hstep : m.processCone traceAnalytics (bd0 :: rest) s
          = m.processCone traceAnalytics rest s' := by
        simp [MilestoneCtx.processCone, hb]
      rw [hstep] at h ⊢
      rcases List.mem_cons.mp hbd with rfl | hbd'
      · have hblock : AEvent.block bd m.at_ ∈ s' := by
          rcases handle_block_trace_cases m bd s s' hb with
            ⟨c, r, p, -, -, hs'⟩ | hs' <;> simp [hs']
        obtain ⟨tail, htail, -⟩ := processCone_trace m rest s'
        rw [htail]
        exact List.mem_append.mpr (Or.inl hblock)
      · exact processCone_blocks m rest s' h bd hbd'

/-- C3: every successfully dispatched block — included or not — produces a
`handle_block` callback; for an included block with a transaction payload a
`handle_transaction` callback carrying the resolved consumed and created
lists is always issued, immediately before that block's `handle_block`
callback (read off the instrumentation trace); the slice fan-out dispatches
`handle_block` and `handle_transaction` to every registered analytic in the
list pointwise; and a cone drained without error leaves a block event for
every one of its blocks in the trace. -/
theorem c3_dispatch_order_and_fanout :
    (∀ (m : MilestoneCtx) (bd : BlockData) (s s' : List AEvent),
      m.handle_block traceAnalytics s bd = .ok s' →
      (∀ p, bd.metadata.inclusion_state = .included →
        bd.block.payload = some (.transaction p) →
        ∃ consumed created,
          resolveConsumed m.get_consumed bd.metadata.referenced_by_milestone_index
            p.essence.inputs = .ok consumed ∧
          resolveCreated m.get_created bd.metadata.referenced_by_milestone_index
            p.transaction_id p.essence.outputs = .ok created ∧
          s' = s ++ [.tx consumed created m.at_, .block bd m.at_]) ∧
      ((bd.metadata.inclusion_state ≠ .included ∨
          ∀ p, bd.block.payload ≠ some (.transaction p)) →
        s' = s ++ [.block bd m.at_])) ∧
    (∀ (S M : Type) (a : AnalyticsImpl S M) (ss : List S) (bd : BlockData)
        (ctx : AnalyticsContext) (i : Nat),
      ((listAnalytics a).handle_block ss bd ctx)[i]?
        = (ss[i]?).map fun s => a.handle_block s bd ctx) ∧
    (∀ (S M : Type) (a : AnalyticsImpl S M) (ss : List S)
        (consumed : List LedgerSpent) (created : List LedgerOutput)
        (ctx : AnalyticsContext) (i : Nat),
      ((listAnalytics a).handle_transaction ss consumed created ctx)[i]?
        = (ss[i]?).map fun s => a.handle_transaction s consumed created ctx) ∧
    (∀ (m : MilestoneCtx) (s₀ : List AEvent),
      (m.processCone traceAnalytics m.cone s₀).2 = none →
      ∀ bd ∈ m.cone,
        AEvent.block bd m.at_ ∈ (m.processCone traceAnalytics m.cone s₀).1) := by
  refine ⟨handle_block_trace_strong, ?_, ?_,
    fun m s₀ => processCone_blocks m m.cone s₀⟩
  · intro S M a ss bd ctx i
    simp [listAnalytics]
  · intro S M a ss consumed created ctx i
    simp [listAnalytics]

/-- Witness for C3: on a milestone whose lookups resolve, the included
transaction block's dispatch issues the transaction callback with the
resolved lists right before its block callback; and the fan-out maps a
two-element analytic list pointwise. -/
theorem c3_dispatch_order_and_fanout_witness :
    (∃ consumed created,
      resolveConsumed msGood.get_consumed
        bOneInput.metadata.referenced_by_milestone_index
        txOneInput.essence.inputs = .ok consumed ∧
      resolveCreated msGood.get_created
        bOneInput.metadata.referenced_by_milestone_index
        txOneInput.transaction_id txOneInput.essence.outputs = .ok created ∧
      [AEvent.tx [spentFix] [] msGood.at_, AEvent.block bOneInput msGood.at_]
        = [] ++ [.tx consumed created msGood.at_, .block bOneInput msGood.at_]) ∧
    ((listAnalytics traceAnalytics).handle_block [[], []] bTagged msBroken.ctx)[0]?
      = some (traceAnalytics.handle_block [] bTagged msBroken.ctx) :=
  ⟨(c3_dispatch_order_and_fanout.1 msGood bOneInput []
      [AEvent.tx [spentFix] [] msGood.at_, AEvent.block bOneInput msGood.at_]
      rfl).1 txOneInput rfl rfl,
   by rw [c3_dispatch_order_and_fanout.2.1]; rfl⟩

/-- C2: on an included block with a transaction payload, a UTXO input whose
output id `get_consumed` cannot resolve makes the dispatch fail with
`MissingLedgerSpent` carrying that output id and the block's referencing
milestone index (the first missing input determines the error); when all
consumed inputs resolve, an output position `j` whose synthesised id
`(transaction_id, j)` `get_created` cannot resolve makes it fail with
`MissingLedgerOutput` for that id; in both cases the error is produced
before any analytic callback — the result does not depend on the analytic
or its state, and the driver loop leaves the analytics state untouched. -/
theorem c2_missing_resolution_errors {S M : Type} (a : AnalyticsImpl S M) (s : S)
    (m : MilestoneCtx) (bd : BlockData) (p : TransactionPayload)
    (hinc : bd.metadata.inclusion_state = .included)
    (hp : bd.block.payload = some (.transaction p)) :
    (∀ oid0, (p.essence.inputs.filterMap Input.utxoId).find?
        (fun oid => (m.get_consumed oid).isNone) = some oid0 →
      m.handle_block a s bd
        = .error (.missingLedgerSpent oid0 bd.metadata.referenced_by_milestone_index)) ∧
    ((∀ oid ∈ p.essence.inputs.filterMap Input.utxoId, (m.get_consumed oid).isSome) →
      ∀ j0, (List.range p.essence.outputs.length).find?
          (fun j => (m.get_created
            { transaction_id := p.transaction_id, index := j }).isNone) = some j0 →
      m.handle_block a s bd
        = .error (.missingLedgerOutput
            { transaction_id := p.transaction_id, index := j0 }
            bd.metadata.referenced_by_milestone_index)) ∧
    (∀ (rest : List BlockData) (e : AnalyticsError),
      m.handle_block a s bd = .error e →
      m.processCone a (bd :: rest) s = (s, some e)) := by
  refine ⟨?_, ?_, ?_⟩
  · intro oid0 hfind
    have hc := resolveConsumed_error m.get_consumed
      bd.metadata.referenced_by_milestone_index p.essence.inputs oid0 hfind
    unfold MilestoneCtx.handle_block
    rw [if_pos hinc, hp]
    dsimp only
    rw [hc]
    rfl
  · intro hall j0 hfind
    obtain ⟨ls, hc⟩ := resolveConsumed_ok m.get_consumed
      bd.metadata.referenced_by_milestone_index p.essence.inputs hall
    have hcr := resolveCreated_error m.get_created
      bd.metadata.referenced_by_milestone_index p.transaction_id
      p.essence.outputs j0 hfind
    unfold MilestoneCtx.handle_block
    rw [if_pos hinc, hp]
    dsimp only
    rw [hc]
    simp only [bind, Except.bind]
    rw [hcr]
  · intro rest e h
    simp [MilestoneCtx.processCone, h]

/-- Witness for C2: the broken milestone's transaction block fails with
`MissingLedgerSpent` for its sole UTXO input, and the driver loop leaves
the trace untouched. -/
theorem c2_missing_resolution_errors_witness :
    msBroken.handle_block traceAnalytics [] bOneInput
      = .error (.missingLedgerSpent { transaction_id := 5, index := 0 } 7) ∧
    msBroken.processCone traceAnalytics [bOneInput] []
      = ([], some (.missingLedgerSpent { transaction_id := 5, index := 0 } 7)) :=
  have h := c2_missing_resolution_errors traceAnalytics [] msBroken bOneInput
    txOneInput rfl rfl
  have herr := h.1 { transaction_id := 5, index := 0 } (by decide)
  ⟨herr, h.2.2 [] _ herr⟩

/-- `insertOpt` touches only the address set. -/
theorem insertOpt_fields (acc : ActiveAddresses) (a? : Option Address) :
    (acc.insertOpt a?).start_time = acc.start_time ∧
    (acc.insertOpt a?).interval = acc.interval ∧
    (acc.insertOpt a?).flush = acc.flush := by
  cases a? <;> exact ⟨rfl, rfl, rfl⟩

/-- A fold of address insertions touches only the address set. -/
theorem foldl_insertOpt_fields {α : Type} (pick : α → Option Address) :
    ∀ (l : List α) (t : ActiveAddresses),
    ((l.foldl (fun acc x => acc.insertOpt (pick x)) t).start_time = t.start_time ∧
     (l.foldl (fun acc x => acc.insertOpt (pick x)) t).interval = t.interval ∧
     (l.foldl (fun acc x => acc.insertOpt (pick x)) t).flush = t.flush)
  | [], t => ⟨rfl, rfl, rfl⟩
  | x :: xs, t => by
    obtain ⟨h1, h2, h3⟩ := foldl_insertOpt_fields pick xs (t.insertOpt (pick x))
    obtain ⟨g1, g2, g3⟩ := insertOpt_fields t (pick x)
    exact ⟨by rw [List.foldl_cons, h1, g1], by rw [List.foldl_cons, h2, g2],
      by rw [List.foldl_cons, h3, g3]⟩

/-- `handle_transaction` touches only the address set. -/
theorem handle_transaction_fields (s : ActiveAddresses)
    (inputs : List LedgerSpent) (outputs : List LedgerOutput) :
    ((s.handle_transaction inputs outputs).start_time = s.start_time ∧
     (s.handle_transaction inputs outputs).interval = s.interval ∧
     (s.handle_transaction inputs outputs).flush = s.flush) := by
  unfold ActiveAddresses.handle_transaction
  obtain ⟨h1, h2, h3⟩ := foldl_insertOpt_fields
    (fun (output : LedgerOutput) => output.output.owning_address) outputs
    (inputs.foldl (fun acc input => acc.insertOpt input.output.output.owning_address) s)
  obtain ⟨g1, g2, g3⟩ := foldl_insertOpt_fields
    (fun (input : LedgerSpent) => input.output.output.owning_address) inputs s
  exact ⟨by rw [h1, g1], by rw [h2, g2], by rw [h3, g3]⟩

/-- A run containing no boundary-crossing `begin_milestone` leaves the
window and the flush slot unchanged. -/
theorem run_noCross :
    ∀ (es : List AAEvent) (s : ActiveAddresses),
    (∀ at_, AAEvent.beginMs at_ ∈ es →
      at_.milestone_timestamp ≤ s.start_time + s.interval) →
    ((s.run es).start_time = s.start_time ∧
     (s.run es).interval = s.interval ∧
     (s.run es).flush = s.flush)
  | [], s, _ => ⟨rfl, rfl, rfl⟩
  | .beginMs at_ :: es, s, h => by
    have hle := h at_ (List.mem_cons_self _ _)
    have hb : s.begin_milestone at_ = s := by
      unfold ActiveAddresses.begin_milestone
      rw [if_neg (by omega)]
    have hrun : s.run (.beginMs at_ :: es) = s.run es := by
      simp [ActiveAddresses.run, ActiveAddresses.step, hb]
    rw [hrun]
    exact run_noCross es s fun a ha => h a (List.mem_cons_of_mem _ ha)
  | .tx i o :: es, s, h => by
    obtain ⟨f1, f2, f3⟩ := handle_transaction_fields s i o
    have hrun : s.run (.tx i o :: es) = (s.handle_transaction i o).run es := by
      simp [ActiveAddresses.run, ActiveAddresses.step]
    obtain ⟨r1, r2, r3⟩ := run_noCross es (s.handle_transaction i o)
      (fun a ha => by rw [f1, f2]; exact h a (List.mem_cons_of_mem _ ha))
    rw [hrun]
    exact ⟨by rw [r1, f1], by rw [r2, f2], by rw [r3, f3]⟩

/-- Over any event sequence, the number of emissions is at most the number
of boundary crossings plus one for an initially pending flush. -/
theorem runCount_emissions_le :
    ∀ (tr : List AASeqEvent) (t : ActiveAddresses),
    (t.runCount tr).2.1
      ≤ (t.runCount tr).2.2 + (if t.flush.isSome then 1 else 0)
  | [], t => by simp [ActiveAddresses.runCount]
  | .beginMs at_ :: es, t => by
    have ih := runCount_emissions_le es (t.begin_milestone at_)
    by_cases hc : at_.milestone_timestamp > t.start_time + t.interval
    · have hfl : (t.begin_milestone at_).flush = some t.addresses.card := by
        unfold ActiveAddresses.begin_milestone
        rw [if_pos hc]
      rw [hfl] at ih
      simp only [ActiveAddresses.runCount, if_pos hc]
      simp only [Option.isSome_some, if_pos] at ih ⊢
      omega
    · have hb : t.begin_milestone at_ = t := by
        unfold ActiveAddresses.begin_milestone
        rw [if_neg hc]
      rw [hb] at ih
      simp only [ActiveAddresses.runCount, if_neg hc, hb]
      omega
  | .tx i o :: es, t => by
    have ih := runCount_emissions_le es (t.handle_transaction i o)
    obtain ⟨-, -, f3⟩ := handle_transaction_fields t i o
    rw [f3] at ih
    simpa [ActiveAddresses.runCount] using ih
  | .endMs at_ :: es, t => by
    have ih := runCount_emissions_le es { t with flush := none }
    simp at ih
    cases hf : t.flush <;>
      simp [ActiveAddresses.runCount, ActiveAddresses.end_milestone, hf] <;>
      omega

/-- Counterexample to C4 as stated: from a fresh window `[0, 10)`, two
boundary-crossing `begin_milestone` calls followed by two `end_milestone`
calls cross two interval boundaries but produce only one emission — the
single-slot pending flush collapses the earlier crossing, so a crossed
boundary does not always yield an emission. -/
theorem c4_counterexample :
    (aaFresh.runCount aaTwoCrossings).2.2 = 2 ∧
    (aaFresh.runCount aaTwoCrossings).2.1 = 1 ∧
    (aaFresh.runCount aaTwoCrossings).2.1
      ≠ (aaFresh.runCount aaTwoCrossings).2.2 := by decide

/-- C4 amended: `end_milestone` returns the pending-flush value and
consumes it; an `end_milestone` with no intervening boundary crossing
returns nothing (so two consecutive `end_milestone` calls never both
return a value unless a crossing occurred between them); and over any
event sequence started with no pending flush, emissions never exceed
boundary crossings — at most (not exactly) one emission per crossing,
since multiple crossings between two `end_milestone` calls collapse into
a single emission. -/
theorem c4_amended (s : ActiveAddresses) (at1 at2 : MilestoneIndexTimestamp)
    (es : List AAEvent)
    (h : ∀ at_, AAEvent.beginMs at_ ∈ es →
      at_.milestone_timestamp ≤ s.start_time + s.interval) :
    s.end_milestone at1 = ({ s with flush := none }, s.flush.map AddressCount.mk) ∧
    (((s.end_milestone at1).1.run es).end_milestone at2).2 = none ∧
    (∀ (t : ActiveAddresses) (tr : List AASeqEvent), t.flush = none →
      (t.runCount tr).2.1 ≤ (t.runCount tr).2.2) := by
  refine ⟨rfl, ?_, ?_⟩
  · obtain ⟨-, -, hf⟩ := run_noCross es (s.end_milestone at1).1 h
    show (((s.end_milestone at1).1.run es).flush.map AddressCount.mk) = none
    rw [hf]
    rfl
  · intro t tr ht
    have hle := runCount_emissions_le tr t
    rw [ht] at hle
    simpa using hle

/-- Witness for C4 amended: a pending flush survives a non-crossing
`begin_milestone`, the first `end_milestone` consumes it and the second
returns nothing. -/
theorem c4_amended_witness :
    aaPending.end_milestone { milestone_index := 1, milestone_timestamp := 5 }
      = ({ aaPending with flush := none }, some (AddressCount.mk 3)) ∧
    (((aaPending.end_milestone { milestone_index := 1, milestone_timestamp := 5 }).1.run
        [.beginMs { milestone_index := 2, milestone_timestamp := 7 }]).end_milestone
      { milestone_index := 2, milestone_timestamp := 9 }).2 = none :=
  have h := c4_amended aaPending
    { milestone_index := 1, milestone_timestamp := 5 }
    { milestone_index := 2, milestone_timestamp := 9 }
    [.beginMs { milestone_index := 2, milestone_timestamp := 7 }]
    (by
      intro a ha
      simp only [List.mem_singleton, AAEvent.beginMs.injEq] at ha
      subst ha
      decide)
  ⟨h.1, h.2.1⟩

/-- Counterexample to C1 as stated: on a milestone whose second block fails
resolution, `update_analytics` returns the error and forwards nothing to
the sink — but the analytics state is NOT the pre-milestone state: the
first (tagged-data) block's `handle_block` mutation survives the abort. -/
theorem c1_counterexample :
    (msBroken.update_analytics traceAnalytics []).err
      = some (.missingLedgerSpent { transaction_id := 5, index := 0 } 7) ∧
    (msBroken.update_analytics traceAnalytics []).sink = [] ∧
    (msBroken.update_analytics traceAnalytics []).state ≠ [] := by decide

/-- C1 amended: when resolving a consumed or created output fails,
`update_analytics` returns the error, `end_milestone` is never invoked (no
milestone-end event reaches the analytics) and no measurement is forwarded
to the sink — but the analytics keep the mutations from the events
dispatched before the failure: the final state is the state after
processing the blocks preceding the failing one, not the state from before
the milestone began. -/
theorem c1_amended (m : MilestoneCtx) (s₀ : List AEvent) (e : AnalyticsError)
    (h : (m.update_analytics traceAnalytics s₀).err = some e) :
    (m.update_analytics traceAnalytics s₀).sink = [] ∧
    (∃ tail, (m.update_analytics traceAnalytics s₀).state = s₀ ++ tail ∧
      ∀ ev ∈ tail, ∀ at_, ev ≠ AEvent.endMs at_) ∧
    (m.update_analytics traceAnalytics s₀).state
      = (m.processCone traceAnalytics m.cone s₀).1 := by
  cases hpc : m.processCone traceAnalytics m.cone s₀ with
  | mk s' oerr =>
    cases oerr with
    | none =>
      exfalso
      rw [MilestoneCtx.update_analytics, hpc] at h
      simp at h
    | some e' =>
      have hres : m.update_analytics traceAnalytics s₀
          = { state := s', sink := [], err := some e' } := by
        rw [MilestoneCtx.update_analytics, hpc]
      obtain ⟨tail, htail, hno⟩ := processCone_trace m m.cone s₀
      rw [hpc] at htail
      exact ⟨by rw [hres], ⟨tail, by rw [hres]; exact htail, hno⟩,
        by rw [hres]⟩

/-- Witness for C1 amended on the concrete broken milestone. -/
theorem c1_amended_witness :
    (msBroken.update_analytics traceAnalytics []).sink = [] ∧
    (msBroken.update_analytics traceAnalytics []).state
      = (msBroken.processCone traceAnalytics msBroken.cone []).1 :=
  have h := c1_amended msBroken []
    (.missingLedgerSpent { transaction_id := 5, index := 0 } 7) (by decide)
  ⟨h.1, h.2.2⟩

/-- The dynamic per-milestone wrapper stamps the measurement with exactly
the context's milestone stamp. -/
theorem dynEndMilestone_stamp {S M : Type} (a : AnalyticsImpl S M) (s : S)
    (ctx : AnalyticsContext) (p : PerMilestone M)
    (h : (dynEndMilestone a s ctx).2 = some p) :
    p.at_ = ctx.at_ ∧ (a.end_milestone s ctx).2 = some p.inner := by
  cases he : a.end_milestone s ctx with
  | mk s1 r =>
    rw [dynEndMilestone, he] at h
    simp only [Option.map_eq_some'] at h
    obtain ⟨meas, hr, hp⟩ := h
    subst hp
    exact ⟨rfl, by simp [hr]⟩

/-- The dynamic per-interval wrapper stamps the measurement with exactly
the invocation's start date and interval kind. -/
theorem dynHandleDateRange_stamp {S M : Type} (ai : IntervalAnalyticsImpl S M)
    (s : S) (d : Date) (iv : AnalyticsInterval) (s' : S) (p : PerInterval M)
    (h : dynHandleDateRange ai s d iv = .ok (s', p)) :
    p.start_date = d ∧ p.interval = iv ∧
    ai.handle_date_range s d iv = .ok (s', p.inner) := by
  cases hr : ai.handle_date_range s d iv with
  | error e => rw [dynHandleDateRange, hr] at h; cases h
  | ok r =>
    rw [dynHandleDateRange, hr] at h
    cases h
    exact ⟨rfl, rfl, rfl⟩

/-- C9: measurement stamping is preserved end to end — the per-milestone
wrapper tags a measurement with exactly the driving context's milestone
stamp, the per-interval wrapper with exactly the start date and interval
kind it was invoked with; the milestone driver writes at most one sink
point, stamped with the milestone, and the interval driver writes exactly
one point per analytic, each stamped with the invocation's date and
interval. -/
theorem c9_stamp_preservation {S M : Type} (a : AnalyticsImpl S M)
    (ai : IntervalAnalyticsImpl S M) (s : S) (ctx : AnalyticsContext)
    (d : Date) (iv : AnalyticsInterval) :
    (∀ p, (dynEndMilestone a s ctx).2 = some p →
      p.at_ = ctx.at_ ∧ (a.end_milestone s ctx).2 = some p.inner) ∧
    (∀ s' p, dynHandleDateRange ai s d iv = .ok (s', p) →
      p.start_date = d ∧ p.interval = iv ∧
      ai.handle_date_range s d iv = .ok (s', p.inner)) ∧
    (∀ (m : MilestoneCtx) (st : S),
      (m.update_analytics a st).sink.length ≤ 1 ∧
      ∀ p ∈ (m.update_analytics a st).sink, p.at_ = m.at_) ∧
    (∀ (ss ss' : List S) (ps : List (PerInterval M)),
      update_interval_analytics ai d iv ss = .ok (ss', ps) →
      ps.length = ss.length ∧ ∀ p ∈ ps, p.start_date = d ∧ p.interval = iv) := by
  refine ⟨dynEndMilestone_stamp a s ctx, dynHandleDateRange_stamp ai s d iv, ?_, ?_⟩
  · intro m st
    cases hpc : m.processCone a m.cone st with
    | mk s1 oerr =>
      cases oerr with
      | some e =>
        have hres : m.update_analytics a st = { state := s1, sink := [], err := some e } := by
          rw [MilestoneCtx.update_analytics, hpc]
        rw [hres]
        simp
      | none =>
        have hup : m.update_analytics a st
            = { state := (dynEndMilestone a s1 m.ctx).1
                sink := match (dynEndMilestone a s1 m.ctx).2 with
                  | some p => [p]
                  | none => []
                err := none } := by
          rw [MilestoneCtx.update_analytics, hpc]
        rw [hup]
        cases hd : (dynEndMilestone a s1 m.ctx).2 with
        | none => simp
        | some p0 =>
          refine ⟨by simp, ?_⟩
          intro p hp
          simp only [List.mem_singleton] at hp
          subst hp
          exact (dynEndMilestone_stamp a s1 m.ctx p hd).1
  · intro ss
    induction ss with
    | nil =>
      intro ss' ps h
      rw [update_interval_analytics] at h
      cases h
      simp
    | cons s0 rest ih =>
      intro ss' ps h
      rw [update_interval_analytics] at h
      cases hd : dynHandleDateRange ai s0 d iv with
      | error e => rw [hd] at h; cases h
      | ok r =>
        rw [hd] at h
        cases hrec : update_interval_analytics ai d iv rest with
        | error e => rw [hrec] at h; cases h
        | ok r2 =>
          rw [hrec] at h
          cases h
          obtain ⟨hlen, hall⟩ := ih r2.1 r2.2 (by rw [hrec])
          obtain ⟨h1, h2, -⟩ := dynHandleDateRange_stamp ai s0 d iv r.1 r.2 (by rw [hd])
          refine ⟨by simp [hlen], ?_⟩
          intro p hp
          rcases List.mem_cons.mp hp with hp | hp
          · subst hp; exact ⟨h1, h2⟩
          · exact hall p hp

/-- Witness for C9: the wrapper stamps on concrete inputs. -/
theorem c9_stamp_preservation_witness :
    (PerMilestone.mk msBroken.ctx.at_ ()).at_ = msBroken.ctx.at_ ∧
    ((msBroken.update_analytics traceAnalytics []).sink.length ≤ 1) :=
  have h := c9_stamp_preservation traceAnalytics ivTrivial [] msBroken.ctx
    (Date.fromCivil 2023 1 1) .day
  ⟨(h.1 (PerMilestone.mk msBroken.ctx.at_ ()) rfl).1, (h.2.2.1 msBroken []).1⟩
